import Mathlib

/-!
LibCarla: `RecurrentSharedFuture<T>` and `time_duration`.

A shallow embedding of `carla/RecurrentSharedFuture.h` and `carla/Time.h`.

* The future's only data member besides the mutex and the condition variable is
  `_map`.  Every access to it happens while `_mutex` is held, so an execution is
  an interleaving of the critical sections of the three member functions.
  `WaitFor` has two of them: the entry (lock, `_map[&thread_tag]`,
  `should_wait = true`, first predicate test, park) and every later wake-up
  (predicate test and, when it holds, the read of the slot).  `SetValue` is
  one critical section.
* `time_duration` stores a `size_t`; the arithmetic of its constructors is
  modelled on `Int`/`Nat` with the 64-bit ranges made explicit.
-/

namespace carla

/-! ## Exceptions -/

namespace detail

/-- An object of a class derived from `std::exception`, as it is reached through a
`std::shared_ptr<std::exception>`: its dynamic class and the text returned by its
virtual `what()`. -/
structure std_exception where
  cls : String
  what : String
deriving DecidableEq, Repr

/-- The object built by `std::runtime_error(msg)`. -/
def runtime_error (msg : String) : std_exception :=
  { cls := "std::runtime_error", what := msg }

/-- The argument `ExceptionT &&e` of `SetException`: the object it refers to, and the
class `ExceptionT` through which it is passed, the object's own class or one of its
bases.  `base_what` is the text `what()` returns on a copy of the `ExceptionT` part of
the object alone. -/
structure exception_argument where
  object : std_exception
  ExceptionT : String
  base_what : String
deriving DecidableEq, Repr

/-- An object passed to `SetException` as an rvalue of its own class. -/
def passed_as_is (o : std_exception) : exception_argument :=
  { object := o, ExceptionT := o.cls, base_what := o.what }

/-- The pointee of `std::make_shared<ExceptionT>(std::forward<ExceptionT>(e))`: an
object of class `ExceptionT`, copy-constructed from the argument.  It is a copy of the
whole object when `ExceptionT` is the object's class; through a base class only the
base part is copied. -/
def make_shared (e : exception_argument) : std_exception :=
  if e.ExceptionT = e.object.cls then e.object
  else { cls := e.ExceptionT, what := e.base_what }

/-- The class `detail::SharedException`: one data member, `_exception`. -/
structure SharedException where
  _exception : std_exception
deriving DecidableEq, Repr

/-- The constructor `SharedException()`: `_exception` points to the object built in
place by `std::make_shared<std::runtime_error>("uninitialized SharedException")`. -/
def SharedException.default : SharedException :=
  { _exception := runtime_error "uninitialized SharedException" }

/-- The member `SharedException::what()`: `_exception->what()`. -/
def SharedException.what (e : SharedException) : String := e._exception.what

/-- The member `SharedException::GetException()`. -/
def SharedException.GetException (e : SharedException) : std_exception := e._exception

end detail

open detail

/-! ## The slot map -/

/-- The type `boost::variant2::variant<SharedException, T>`. -/
inductive variant (T : Type) where
  | index0 (e : SharedException)
  | index1 (v : T)
deriving DecidableEq, Repr

/-- The member `variant::index()`. -/
def variant.index {T : Type} : variant T → Nat
  | .index0 _ => 0
  | .index1 _ => 1

/-- The struct `RecurrentSharedFuture<T>::mapped_type`. -/
structure mapped_type (T : Type) where
  should_wait : Bool
  value : variant T
deriving DecidableEq, Repr

/-- The value-initialised `mapped_type` that `std::map::operator[]` inserts for a new
key: `should_wait` is `false` and `value` holds its first alternative,
default-constructed. -/
def mapped_type.init {T : Type} : mapped_type T :=
  { should_wait := false, value := .index0 SharedException.default }

/-- The key type `const char *` of `_map`: the address of a thread's `thread_tag`. -/
abbrev Key := Nat

/-- The member `_map`, a `std::map<const char *, mapped_type>`, as the list of its
pairs in iteration order. -/
abbrev Map (T : Type) := List (Key × mapped_type T)

/-- The lookup of the element with key `k`. -/
def find {T : Type} : Map T → Key → Option (mapped_type T)
  | [], _ => none
  | (k', x) :: rest, k => if k' = k then some x else find rest k

/-- The insertion of a new pair at its place in key order. -/
def emplace {T : Type} (k : Key) (x : mapped_type T) : Map T → Map T
  | [] => [(k, x)]
  | (k', y) :: rest =>
    if k < k' then (k, x) :: (k', y) :: rest else (k', y) :: emplace k x rest

/-- The map after `_map[k]`: a value-initialised element is inserted when the key is
absent. -/
def subscript {T : Type} (m : Map T) (k : Key) : Map T :=
  if (find m k).isSome then m else emplace k mapped_type.init m

/-- A write through a reference to the element with key `k`. -/
def assign {T : Type} (f : mapped_type T → mapped_type T) : Map T → Key → Map T
  | [], _ => []
  | (k', x) :: rest, k =>
    if k' = k then (k', f x) :: rest else (k', x) :: assign f rest k

/-! ## `RecurrentSharedFuture<T>` -/

/-- The ways a wake-up inside `WaitFor` can end. -/
inductive WaitResult (T : Type) where
  /-- The predicate is false and the timeout has not elapsed: the thread parks again. -/
  | parked
  /-- The call `_cv.wait_for` returned false: `return {}`. -/
  | empty
  /-- The statement `return boost::variant2::get<T>(std::move(r.value))`. -/
  | returned (v : T)
  /-- The statement `throw_exception(boost::variant2::get<SharedException>(r.value))`. -/
  | thrown (e : SharedException)
deriving DecidableEq, Repr

/-- Modelled from the spec: `throw_exception` is declared in `carla/Exception.h`, which
is not among the sources; by the spec the captured failure is raised in the calling
thread, so the call ends `WaitFor` with that exception. -/
def throw_exception {T : Type} (e : SharedException) : WaitResult T := .thrown e

/-- The entry of `WaitFor`: with the lock held, `auto &r = _map[&detail::thread_tag]`
and `r.should_wait = true`.  The predicate of `_cv.wait_for` is then false, so the
thread releases the lock and parks. -/
def WaitFor_enter {T : Type} (m : Map T) (c : Key) : Map T :=
  assign (fun r => { r with should_wait := true }) (subscript m c) c

/-- A wake-up of the thread `c` inside `_cv.wait_for`, with the lock held again;
`timedOut` tells whether the timeout has elapsed.  The predicate `!r.should_wait` is
tested; when it is false the wait goes on or, after the timeout, `WaitFor` returns the
empty optional; when it is true the slot is read: the first alternative is thrown,
the second is moved out of the slot and returned.  `moved v` is the state in which
the move constructor of `T` leaves the object `v`.  The result is `none` when `c` has
no element in `_map`: then `c` never entered `WaitFor` and there is no `r`. -/
def WaitFor_wake {T : Type} (moved : T → T) (m : Map T) (c : Key) (timedOut : Bool) :
    Option (Map T × WaitResult T) :=
  match find m c with
  | none => none
  | some r =>
    if r.should_wait then
      if timedOut then some (m, .empty) else some (m, .parked)
    else
      match r.value with
      | .index0 e => some (m, throw_exception e)
      | .index1 v =>
        some (assign (fun r => { r with value := .index1 (moved v) }) m c, .returned v)

/-- The member `SetValue<T2>`; `value` is the argument as the alternative of the
variant that the assignment `pair.second.value = value` selects. -/
def SetValue {T : Type} (m : Map T) (value : variant T) : Map T :=
  m.map fun pair =>
    (pair.1, { ({ pair.2 with should_wait := false } : mapped_type T) with value := value })

/-- The member `SetException<ExceptionT>`. -/
def SetException {T : Type} (m : Map T) (e : exception_argument) : Map T :=
  SetValue m (.index0 (SharedException.mk (make_shared e)))

/-- The critical sections of the three member functions. -/
inductive Op (T : Type) where
  | enter (c : Key)
  | wake (c : Key) (timedOut : Bool)
  | set_value (v : T)
  | set_exception (e : exception_argument)
deriving DecidableEq, Repr

/-- One critical section: the new map and, for a wake-up, the thread and what it got.
A wake-up of a thread that never entered `WaitFor` is no step at all. -/
def step {T : Type} (moved : T → T) (m : Map T) : Op T → Map T × Option (Key × WaitResult T)
  | .enter c => (WaitFor_enter m c, none)
  | .wake c timedOut =>
    match WaitFor_wake moved m c timedOut with
    | none => (m, none)
    | some (m', res) => (m', some (c, res))
  | .set_value v => (SetValue m (.index1 v), none)
  | .set_exception e => (SetException m e, none)

/-- The map after a sequence of critical sections. -/
def run {T : Type} (moved : T → T) : Map T → List (Op T) → Map T
  | m, [] => m
  | m, op :: ops => run moved (step moved m op).1 ops

/-- The results of the wake-ups of a sequence of critical sections, in order. -/
def results {T : Type} (moved : T → T) : Map T → List (Op T) → List (Key × WaitResult T)
  | _, [] => []
  | m, op :: ops =>
    match (step moved m op).2 with
    | none => results moved (step moved m op).1 ops
    | some r => r :: results moved (step moved m op).1 ops

/-- The critical section `op` belongs to a call of `WaitFor` by a thread other than `c`. -/
def Op.waitOfOther {T : Type} (c : Key) : Op T → Bool
  | .enter d => d != c
  | .wake d _ => d != c
  | .set_value _ => false
  | .set_exception _ => false

/-- The payload a publishing critical section stores, if `op` is one. -/
def Op.payload {T : Type} : Op T → Option (variant T)
  | .enter _ => none
  | .wake _ _ => none
  | .set_value v => some (.index1 v)
  | .set_exception e => some (.index0 (SharedException.mk (make_shared e)))

/-- What a thread that finds its slot released gets for the payload `p`. -/
def delivered {T : Type} : variant T → WaitResult T
  | .index0 e => .thrown e
  | .index1 v => .returned v

/-- The payload of the last publishing critical section of `ops`, or `p` when there is
none. -/
def lastPayload {T : Type} (p : variant T) (ops : List (Op T)) : variant T :=
  ops.foldl (fun q op => (op.payload).getD q) p

/-- The payloads stored by the publishing critical sections of `ops`, in order. -/
def published {T : Type} (ops : List (Op T)) : List (variant T) :=
  ops.filterMap Op.payload

/-- The future together with the threads that are inside a call of `WaitFor`. -/
structure Sys (T : Type) where
  _map : Map T
  inside : List Key

/-- The constructed future: an empty `_map`, and no thread inside `WaitFor`. -/
def Sys.init {T : Type} : Sys T := { _map := [], inside := [] }

/-- Whether a wake-up leaves the thread inside `_cv.wait_for`. -/
def WaitResult.isParked {T : Type} : WaitResult T → Bool
  | .parked => true
  | _ => false

/-- One critical section of an execution.  A thread enters `WaitFor` only when it
is not inside a call already, and wakes up only inside a call; a critical section that
cannot take place is skipped.  A wake-up that does not park again ends the call. -/
def Sys.advance {T : Type} (moved : T → T) (s : Sys T) :
    Op T → Sys T × Option (Key × WaitResult T)
  | .enter c =>
    if c ∈ s.inside then (s, none)
    else ({ _map := WaitFor_enter s._map c, inside := c :: s.inside }, none)
  | .wake c timedOut =>
    if c ∈ s.inside then
      match WaitFor_wake moved s._map c timedOut with
      | none => (s, none)
      | some (m', res) =>
        ({ _map := m',
           inside := if res.isParked then s.inside else s.inside.filter (fun k => k != c) },
         some (c, res))
    else (s, none)
  | .set_value v => ({ s with _map := SetValue s._map (.index1 v) }, none)
  | .set_exception e => ({ s with _map := SetException s._map e }, none)

/-- The future and the threads inside `WaitFor` after a sequence of critical sections. -/
def Sys.execute {T : Type} (moved : T → T) : Sys T → List (Op T) → Sys T
  | s, [] => s
  | s, op :: ops => Sys.execute moved (Sys.advance moved s op).1 ops

/-- The results of the wake-ups of an execution, in order. -/
def Sys.outcomes {T : Type} (moved : T → T) :
    Sys T → List (Op T) → List (Key × WaitResult T)
  | _, [] => []
  | s, op :: ops =>
    match (Sys.advance moved s op).2 with
    | none => Sys.outcomes moved (Sys.advance moved s op).1 ops
    | some r => r :: Sys.outcomes moved (Sys.advance moved s op).1 ops

/-- The slots released by a publish hold a payload of the history `H`; the slot of a
thread whose call has returned may hold what the move left of such a payload. -/
def SlotsWritten {T : Type} (moved : T → T) (H : List (variant T)) (s : Sys T) : Prop :=
  ∀ c slot, find s._map c = some slot → slot.should_wait = false →
    slot.value ∈ H ∨
      (c ∉ s.inside ∧ ∃ v, variant.index1 v ∈ H ∧ slot.value = .index1 (moved v))

/-- The result of a wake-up hands out a payload of the history `H`, if any. -/
def ResultWritten {T : Type} (H : List (variant T)) : WaitResult T → Prop
  | .thrown e => variant.index0 e ∈ H
  | .returned v => variant.index1 v ∈ H
  | .empty => True
  | .parked => True

/-! ## `time_duration` -/

/-- Whether `x` is a value of the 64-bit signed `rep` of the chrono durations. -/
def in_int64 (x : Int) : Bool := decide (-(2 : Int) ^ 63 ≤ x) && decide (x < (2 : Int) ^ 63)

/-- The conversion of a `size_t` (64 bits) to the 64-bit signed `rep`. -/
def to_rep (n : Nat) : Int :=
  if n % 2 ^ 64 < 2 ^ 63 then ((n % 2 ^ 64 : Nat) : Int)
  else ((n % 2 ^ 64 : Nat) : Int) - (2 : Int) ^ 64

/-- The conversion `static_cast<size_t>(count)` of a 64-bit signed value. -/
def to_size_t (count : Int) : Nat := (count % (2 : Int) ^ 64).toNat

/-- A `std::chrono::duration<Rep, std::ratio<num, den>>` with a 64-bit signed integer
`Rep`: `count` ticks of `num / den` seconds each. -/
structure chrono_duration where
  count : Int
  num : Nat
  den : Nat
deriving DecidableEq, Repr

/-- The object `std::chrono::seconds(n)`. -/
def chrono_seconds (n : Int) : chrono_duration := { count := n, num := 1, den := 1 }

/-- The object `std::chrono::milliseconds(n)`. -/
def chrono_milliseconds (n : Int) : chrono_duration := { count := n, num := 1, den := 1000 }

/-- The object `std::chrono::microseconds(n)`. -/
def chrono_microseconds (n : Int) : chrono_duration :=
  { count := n, num := 1, den := 1000000 }

/-- The numerator of the conversion factor `Period / std::milli`, in lowest terms. -/
def cf_num (d : chrono_duration) : Nat := d.num * 1000 / Nat.gcd (d.num * 1000) d.den

/-- The denominator of the conversion factor `Period / std::milli`, in lowest terms. -/
def cf_den (d : chrono_duration) : Nat := d.den / Nat.gcd (d.num * 1000) d.den

/-- The count of `std::chrono::duration_cast<std::chrono::milliseconds>(d)`: the ticks
are multiplied by the numerator of the conversion factor and divided, towards zero,
by its denominator, in 64-bit signed arithmetic; the result is `none` when the
product overflows, where the behaviour is undefined. -/
def duration_cast_milliseconds (d : chrono_duration) : Option Int :=
  if in_int64 (d.count * (cf_num d : Int)) then
    some (Int.tdiv (d.count * (cf_num d : Int)) (cf_den d : Int))
  else none

/-- The duration `d` in milliseconds, rounded towards zero to a whole number. -/
def truncated_milliseconds (d : chrono_duration) : Int :=
  Int.tdiv (d.count * ((d.num * 1000 : Nat) : Int)) (d.den : Int)

/-- The class `time_duration`: one data member, the `size_t` `_milliseconds`. -/
structure time_duration where
  _milliseconds : Nat
deriving DecidableEq, Repr

/-- The outcome of constructing a `time_duration`. -/
inductive Constructed where
  | ok (d : time_duration)
  | assertion_failed
  | undefined
deriving DecidableEq, Repr

/-- Modelled from the spec: the macro `DEBUG_ASSERT` is defined in `carla/Debug.h`,
which is not among the sources; by the spec the construction asserts that the count is
non-negative and a negative one is rejected, so the assertion fails, with `none`,
exactly when its predicate is false. -/
def DEBUG_ASSERT (predicate : Bool) : Option Unit :=
  if predicate then some () else none

/-- The constructor `time_duration(std::chrono::duration<Rep, Period>)`. -/
def time_duration.of_chrono (duration : chrono_duration) : Constructed :=
  match duration_cast_milliseconds duration with
  | none => .undefined
  | some count =>
    match DEBUG_ASSERT (decide (count ≥ 0)) with
    | none => .assertion_failed
    | some () => .ok { _milliseconds := to_size_t count }

/-- The constructor `time_duration(boost::posix_time::time_duration)`;
`total_milliseconds` is the value of `timeout.total_milliseconds()`. -/
def time_duration.of_posix_time (total_milliseconds : Int) : Constructed :=
  time_duration.of_chrono (chrono_milliseconds total_milliseconds)

/-- The static member `time_duration::seconds(size_t)`. -/
def time_duration.seconds (timeout : Nat) : Constructed :=
  time_duration.of_chrono (chrono_seconds (to_rep timeout))

/-- The static member `time_duration::milliseconds(size_t)`. -/
def time_duration.milliseconds (timeout : Nat) : Constructed :=
  time_duration.of_chrono (chrono_milliseconds (to_rep timeout))

/-- The default constructor `time_duration()`. -/
def time_duration.zero : time_duration := { _milliseconds := 0 }

/-- The member `to_chrono()`. -/
def time_duration.to_chrono (t : time_duration) : chrono_duration :=
  chrono_milliseconds (to_rep t._milliseconds)

/-- The const member `milliseconds()`, the accessor of `_milliseconds`. -/
def time_duration.milliseconds_count (t : time_duration) : Nat := t._milliseconds

/-! ## Lemmas on the slot map -/

section MapLemmas

variable {T : Type}

theorem find_assign_self (f : mapped_type T → mapped_type T) (m : Map T) (k : Key) :
    find (assign f m k) k = (find m k).map f := by
  induction m with
  | nil => rfl
  | cons hd tl ih =>
    obtain ⟨k', x⟩ := hd
    by_cases h : k' = k
    · simp [assign, find, h]
    · simp [assign, find, h, ih]

theorem find_assign_other (f : mapped_type T → mapped_type T) (m : Map T) (k d : Key)
    (hd : d ≠ k) : find (assign f m k) d = find m d := by
  induction m with
  | nil => rfl
  | cons hd' tl ih =>
    obtain ⟨k', x⟩ := hd'
    by_cases h : k' = k
    · subst h
      have hne : ¬ k' = d := fun e => hd e.symm
      simp [assign, find, hne]
    · by_cases h2 : k' = d
      · subst h2
        simp [assign, find, h]
      · simp [assign, find, h, h2, ih]

theorem find_emplace_other (x : mapped_type T) (m : Map T) (k d : Key) (hd : d ≠ k) :
    find (emplace k x m) d = find m d := by
  induction m with
  | nil =>
    have hne : ¬ k = d := fun e => hd e.symm
    simp [emplace, find, hne]
  | cons hd' tl ih =>
    obtain ⟨k', y⟩ := hd'
    have hne : ¬ k = d := fun e => hd e.symm
    by_cases h : k < k'
    · simp [emplace, find, h, hne]
    · by_cases h2 : k' = d
      · subst h2
        simp [emplace, find, h]
      · simp [emplace, find, h, h2, ih]

theorem find_emplace_self (x : mapped_type T) (m : Map T) (k : Key)
    (hk : find m k = none) : find (emplace k x m) k = some x := by
  induction m with
  | nil => simp [emplace, find]
  | cons hd' tl ih =>
    obtain ⟨k', y⟩ := hd'
    by_cases h2 : k' = k
    · simp [find, h2] at hk
    · have hk' : find tl k = none := by simpa [find, h2] using hk
      by_cases h : k < k'
      · simp [emplace, find, h]
      · simp [emplace, find, h, h2, ih hk']

theorem find_subscript_other (m : Map T) (k d : Key) (hd : d ≠ k) :
    find (subscript m k) d = find m d := by
  unfold subscript
  split
  · rfl
  · exact find_emplace_other _ m k d hd

theorem find_subscript_self (m : Map T) (k : Key) :
    find (subscript m k) k = some ((find m k).getD mapped_type.init) := by
  unfold subscript
  cases h : find m k with
  | none => simpa using find_emplace_self _ m k h
  | some r => simp [h]

theorem find_SetValue (m : Map T) (p : variant T) (k : Key) :
    find (SetValue m p) k =
      (find m k).map fun _ => { should_wait := false, value := p } := by
  induction m with
  | nil => rfl
  | cons hd tl ih =>
    obtain ⟨k', x⟩ := hd
    have ih' : find (List.map (fun pair : Key × mapped_type T =>
        (pair.1, ({ should_wait := false, value := p } : mapped_type T))) tl) k =
        (find tl k).map fun _ => { should_wait := false, value := p } := ih
    by_cases h : k' = k
    · simp [SetValue, find, h]
    · simp [SetValue, find, h, ih']

theorem find_enter_self (m : Map T) (c : Key) :
    find (WaitFor_enter m c) c =
      some { (find m c).getD mapped_type.init with should_wait := true } := by
  unfold WaitFor_enter
  rw [find_assign_self, find_subscript_self]
  rfl

theorem find_enter_other (m : Map T) (c d : Key) (hd : d ≠ c) :
    find (WaitFor_enter m c) d = find m d := by
  unfold WaitFor_enter
  rw [find_assign_other _ _ _ _ hd, find_subscript_other _ _ _ hd]

theorem wake_of_waiting (moved : T → T) (m : Map T) (c : Key) (timedOut : Bool)
    (r : mapped_type T) (hr : find m c = some r) (hw : r.should_wait = true) :
    WaitFor_wake moved m c timedOut =
      some (m, if timedOut then WaitResult.empty else WaitResult.parked) := by
  unfold WaitFor_wake
  rw [hr]
  cases timedOut <;> simp [hw]

theorem wake_of_released (moved : T → T) (m : Map T) (c : Key) (timedOut : Bool)
    (p : variant T) (hr : find m c = some { should_wait := false, value := p }) :
    ∃ m', WaitFor_wake moved m c timedOut = some (m', delivered p) := by
  unfold WaitFor_wake
  rw [hr]
  cases p with
  | index0 e => exact ⟨m, rfl⟩
  | index1 v => exact ⟨_, rfl⟩

theorem find_wake_other (moved : T → T) (m m' : Map T) (c d : Key) (timedOut : Bool)
    (res : WaitResult T) (h : WaitFor_wake moved m c timedOut = some (m', res))
    (hd : d ≠ c) : find m' d = find m d := by
  unfold WaitFor_wake at h
  cases hr : find m c with
  | none => simp [hr] at h
  | some r =>
    rw [hr] at h
    cases hw : r.should_wait with
    | true =>
      cases timedOut <;> simp [hw] at h <;> rw [← h.1]
    | false =>
      cases hv : r.value with
      | index0 e =>
        simp [hw, hv] at h
        rw [← h.1]
      | index1 v =>
        simp [hw, hv] at h
        rw [← h.1]
        exact find_assign_other _ _ _ _ hd

theorem registered_wake (moved : T → T) (m m' : Map T) (c k : Key) (timedOut : Bool)
    (res : WaitResult T) (h : WaitFor_wake moved m c timedOut = some (m', res))
    (hk : (find m k).isSome = true) : (find m' k).isSome = true := by
  by_cases hkc : k = c
  · subst hkc
    unfold WaitFor_wake at h
    cases hr : find m k with
    | none => simp [hr] at h
    | some r =>
      rw [hr] at h
      cases hw : r.should_wait with
      | true =>
        cases timedOut <;> simp [hw] at h <;> rw [← h.1, hr] <;> rfl
      | false =>
        cases hv : r.value with
        | index0 e =>
          simp [hw, hv] at h
          rw [← h.1, hr]
          rfl
        | index1 v =>
          simp [hw, hv] at h
          rw [← h.1, find_assign_self, hr]
          rfl
  · rw [find_wake_other moved m m' c k timedOut res h hkc]
    exact hk

theorem registered_enter (m : Map T) (c k : Key) (hk : (find m k).isSome = true) :
    (find (WaitFor_enter m c) k).isSome = true := by
  by_cases hkc : k = c
  · subst hkc
    rw [find_enter_self]
    rfl
  · rw [find_enter_other m c k hkc]
    exact hk

theorem registered_SetValue (m : Map T) (p : variant T) (k : Key) :
    (find (SetValue m p) k).isSome = (find m k).isSome := by
  rw [find_SetValue]
  cases find m k <;> rfl

theorem registered_step (moved : T → T) (m : Map T) (op : Op T) (k : Key)
    (hk : (find m k).isSome = true) : (find (step moved m op).1 k).isSome = true := by
  cases op with
  | enter c => exact registered_enter m c k hk
  | wake c timedOut =>
    simp only [step]
    cases h : WaitFor_wake moved m c timedOut with
    | none => exact hk
    | some pr =>
      obtain ⟨m', res⟩ := pr
      exact registered_wake moved m m' c k timedOut res h hk
  | set_value v =>
    simp only [step]
    rw [registered_SetValue]
    exact hk
  | set_exception e =>
    simp only [step, SetException]
    rw [registered_SetValue]
    exact hk

theorem registered_run (moved : T → T) (ops : List (Op T)) (m : Map T) (k : Key)
    (hk : (find m k).isSome = true) : (find (run moved m ops) k).isSome = true := by
  induction ops generalizing m with
  | nil => exact hk
  | cons op ops ih => exact ih _ (registered_step moved m op k hk)

theorem find_step_other (moved : T → T) (m : Map T) (op : Op T) (c : Key)
    (h : op.waitOfOther c = true) : find (step moved m op).1 c = find m c := by
  cases op with
  | enter d =>
    have hne : c ≠ d := by
      intro e
      simp [Op.waitOfOther, e] at h
    exact find_enter_other m d c hne
  | wake d timedOut =>
    have hne : c ≠ d := by
      intro e
      simp [Op.waitOfOther, e] at h
    simp only [step]
    cases hw : WaitFor_wake moved m d timedOut with
    | none => rfl
    | some pr =>
      obtain ⟨m', res⟩ := pr
      exact find_wake_other moved m m' d c timedOut res hw hne
  | set_value v => simp [Op.waitOfOther] at h
  | set_exception e => simp [Op.waitOfOther] at h

theorem find_run_others (moved : T → T) (ops : List (Op T)) (m : Map T) (c : Key)
    (h : ∀ op ∈ ops, op.waitOfOther c = true) : find (run moved m ops) c = find m c := by
  induction ops generalizing m with
  | nil => rfl
  | cons op ops ih =>
    have h1 : op.waitOfOther c = true := h op (List.mem_cons_self _ _)
    have h2 : ∀ o ∈ ops, o.waitOfOther c = true :=
      fun o ho => h o (List.mem_cons_of_mem _ ho)
    simp only [run]
    rw [ih _ h2, find_step_other moved m op c h1]

theorem registered_after_enter (moved : T → T) (m0 : Map T) (c : Key) (ops : List (Op T)) :
    (find (run moved (WaitFor_enter m0 c) ops) c).isSome = true := by
  apply registered_run
  rw [find_enter_self]
  rfl

theorem find_published (m : Map T) (p : variant T) (c : Key)
    (hc : (find m c).isSome = true) :
    find (SetValue m p) c = some { should_wait := false, value := p } := by
  rw [find_SetValue]
  cases h : find m c with
  | none => simp [h] at hc
  | some r => rfl

theorem step_publish (moved : T → T) (m : Map T) (op : Op T) (q : variant T)
    (h : op.payload = some q) : (step moved m op).1 = SetValue m q := by
  cases op with
  | enter c => simp [Op.payload] at h
  | wake c timedOut => simp [Op.payload] at h
  | set_value v =>
    simp only [Op.payload, Option.some.injEq] at h
    rw [← h]
    rfl
  | set_exception e =>
    simp only [Op.payload, Option.some.injEq] at h
    rw [← h]
    rfl

theorem find_run_released (moved : T → T) (ops : List (Op T)) (m : Map T) (c : Key)
    (p : variant T) (hm : find m c = some { should_wait := false, value := p })
    (h : ∀ op ∈ ops, (op.payload).isSome = true ∨ op.waitOfOther c = true) :
    find (run moved m ops) c =
      some { should_wait := false, value := lastPayload p ops } := by
  induction ops generalizing m p with
  | nil => exact hm
  | cons op ops ih =>
    have h2 : ∀ o ∈ ops, (o.payload).isSome = true ∨ o.waitOfOther c = true :=
      fun o ho => h o (List.mem_cons_of_mem _ ho)
    simp only [run, lastPayload, List.foldl_cons]
    rcases h op (List.mem_cons_self _ _) with h1 | h1
    · cases hq : op.payload with
      | none => simp [hq] at h1
      | some q =>
        rw [step_publish moved m op q hq]
        have hreg : (find m c).isSome = true := by rw [hm]; rfl
        exact ih (SetValue m q) q (find_published m q c hreg) h2
    · have hnone : op.payload = none := by
        cases op <;> simp [Op.waitOfOther] at h1 <;> rfl
      rw [hnone]
      have hfind : find (step moved m op).1 c =
          some { should_wait := false, value := p } := by
        rw [find_step_other moved m op c h1]
        exact hm
      exact ih _ p hfind h2

theorem wake_congr (moved : T → T) (m m' : Map T) (d : Key) (t : Bool)
    (h : find m' d = find m d) :
    (WaitFor_wake moved m' d t).map Prod.snd = (WaitFor_wake moved m d t).map Prod.snd := by
  unfold WaitFor_wake
  rw [h]
  cases find m d with
  | none => rfl
  | some r =>
    cases hw : r.should_wait with
    | true => cases t <;> simp [hw]
    | false =>
      cases hv : r.value with
      | index0 e => simp [hw, hv]
      | index1 v => simp [hw, hv]

end MapLemmas

/-! ## The future: delivery of published payloads -/

section Future

variable {T : Type}

/-- Claim C1, multi-waiter broadcast.  For every map `m`, after one `SetValue(v)` every
element of `_map`, whether it was waiting or not, has `should_wait = false` and holds
`v`, and the registered keys are the same as before.  Hence for any thread `c` that
has entered `WaitFor` (from any map `m0`, followed by any critical sections `ops1`),
the wake-up of `c` after one `SetValue(v)`, with only critical sections of other
threads' `WaitFor` calls in between, returns `v`, whether or not its timeout has
elapsed meanwhile. -/
theorem C1_multi_waiter_broadcast (moved : T → T) (m m0 : Map T) (c : Key)
    (ops1 ops2 : List (Op T)) (v : T) (timedOut : Bool)
    (h2 : ∀ op ∈ ops2, op.waitOfOther c = true) :
    (∀ pair ∈ SetValue m (.index1 v),
        pair.2 = { should_wait := false, value := .index1 v }) ∧
    (∀ k, (find (SetValue m (.index1 v)) k).isSome = (find m k).isSome) ∧
    ∃ m', WaitFor_wake moved
        (run moved (SetValue (run moved (WaitFor_enter m0 c) ops1) (.index1 v)) ops2)
        c timedOut = some (m', .returned v) := by
  refine ⟨?_, ?_, ?_⟩
  · intro pair hp
    simp only [SetValue, List.mem_map] at hp
    obtain ⟨q, _, hq⟩ := hp
    rw [← hq]
  · intro k
    exact registered_SetValue _ _ k
  · have hreg := registered_after_enter moved m0 c ops1
    have hpub := find_published _ (variant.index1 v) c hreg
    have hfind := find_run_others moved ops2
      (SetValue (run moved (WaitFor_enter m0 c) ops1) (.index1 v)) c h2
    rw [hpub] at hfind
    exact wake_of_released moved _ c timedOut (.index1 v) hfind

theorem C1_multi_waiter_broadcast_witness :
    (∀ op ∈ [Op.enter 3, Op.wake 2 true], Op.waitOfOther (T := Nat) 1 op = true) ∧
    ∃ m', WaitFor_wake id
        (run id (SetValue (run id (WaitFor_enter [] 1) [Op.enter 2]) (.index1 7))
          [Op.enter 3, Op.wake 2 true])
        1 false = some (m', .returned 7) :=
  ⟨by decide,
   (C1_multi_waiter_broadcast id [] [] 1 [Op.enter 2] [Op.enter 3, Op.wake 2 true] 7 false
      (by decide)).2.2⟩

/-- Claim C2, no stale delivery.  From any map `m0` (the thread `c` may have no element
yet, or one that holds an earlier value or exception), once `c` has entered `WaitFor`
and only critical sections of other threads' `WaitFor` calls follow (no `SetValue`,
no `SetException`), the wake-up of `c` at the timeout returns the empty optional and
leaves the map as it is, and a wake-up before the timeout parks again: nothing
published earlier is returned or thrown. -/
theorem C2_timeout_returns_empty (moved : T → T) (m0 : Map T) (c : Key)
    (ops : List (Op T)) (h : ∀ op ∈ ops, op.waitOfOther c = true) :
    WaitFor_wake moved (run moved (WaitFor_enter m0 c) ops) c true =
        some (run moved (WaitFor_enter m0 c) ops, .empty) ∧
    WaitFor_wake moved (run moved (WaitFor_enter m0 c) ops) c false =
        some (run moved (WaitFor_enter m0 c) ops, .parked) := by
  have hfind := find_run_others moved ops (WaitFor_enter m0 c) c h
  rw [find_enter_self] at hfind
  exact ⟨wake_of_waiting moved _ c true _ hfind rfl,
         wake_of_waiting moved _ c false _ hfind rfl⟩

theorem C2_timeout_returns_empty_witness :
    (∀ op ∈ [Op.enter 2, Op.wake 2 true], Op.waitOfOther (T := Nat) 1 op = true) ∧
    WaitFor_wake id
        (run id (WaitFor_enter (SetValue (WaitFor_enter [] 1) (.index1 5)) 1)
          [Op.enter 2, Op.wake 2 true]) 1 true =
      some (run id (WaitFor_enter (SetValue (WaitFor_enter [] 1) (.index1 5)) 1)
          [Op.enter 2, Op.wake 2 true], .empty) :=
  ⟨by decide,
   (C2_timeout_returns_empty id (SetValue (WaitFor_enter [] 1) (.index1 5)) 1
      [Op.enter 2, Op.wake 2 true] (by decide)).1⟩

/-- Claim C3 as stated fails: a `std::runtime_error("boom")` passed to `SetException`
through a reference to its base `std::exception` is copied as a `std::exception`
only, so the waiting thread is thrown a `SharedException` whose `what()` is not
"boom" and whose `GetException()` is not the published object. -/
theorem C3_exception_rethrown_counterexample :
    results id ([] : Map Nat)
        [.enter 1,
         .set_exception { object := runtime_error "boom", ExceptionT := "std::exception",
                          base_what := "std::exception" },
         .wake 1 false] =
      [(1, .thrown (SharedException.mk { cls := "std::exception", what := "std::exception" }))] ∧
    ¬ ∀ (m0 : Map Nat) (c : Key) (e : exception_argument) (timedOut : Bool),
        ∃ m' se, WaitFor_wake id (SetException (WaitFor_enter m0 c) e) c timedOut =
            some (m', .thrown se) ∧
          se.what = e.object.what ∧ se.GetException = e.object := by
  refine ⟨by decide, ?_⟩
  intro h
  obtain ⟨m', se, hm', hwhat, _⟩ := h [] 1
    { object := runtime_error "boom", ExceptionT := "std::exception",
      base_what := "std::exception" } false
  have e : (WaitFor_wake id (SetException (WaitFor_enter ([] : Map Nat) 1)
      { object := runtime_error "boom", ExceptionT := "std::exception",
        base_what := "std::exception" }) 1 false).map Prod.snd =
      some (.thrown (SharedException.mk { cls := "std::exception", what := "std::exception" })) := by
    decide
  rw [hm'] at e
  simp only [Option.map_some', Option.some.injEq, WaitResult.thrown.injEq] at e
  rw [e] at hwhat
  revert hwhat
  decide

/-- Claim C3, amended.  For every argument `e` of `SetException` and every thread `c`
that has entered `WaitFor`, after `SetException(e)` the wake-up of `c`, with only
critical sections of other threads' `WaitFor` calls in between, throws a
`SharedException` (it returns neither a value nor the empty optional) whose
`GetException()` is the copy made by `make_shared<ExceptionT>` and whose `what()` is
that copy's.  When `e` is passed as an object of its own class, the `what()` thrown is
`e`'s and `GetException()` is the copy of `e` itself. -/
theorem C3_exception_rethrown_own_class (moved : T → T) (m0 : Map T) (c : Key)
    (ops1 ops2 : List (Op T)) (e : exception_argument) (timedOut : Bool)
    (h2 : ∀ op ∈ ops2, op.waitOfOther c = true) :
    ∃ m' se, WaitFor_wake moved
        (run moved (SetException (run moved (WaitFor_enter m0 c) ops1) e) ops2)
        c timedOut = some (m', .thrown se) ∧
      se.GetException = make_shared e ∧ se.what = (make_shared e).what ∧
      (e.ExceptionT = e.object.cls →
        se.what = e.object.what ∧ se.GetException = e.object) := by
  have hreg := registered_after_enter moved m0 c ops1
  have hpub := find_published _ (variant.index0 (SharedException.mk (make_shared e))) c hreg
  have hfind := find_run_others moved ops2
    (SetException (run moved (WaitFor_enter m0 c) ops1) e) c h2
  unfold SetException at hfind
  rw [hpub] at hfind
  obtain ⟨m', hm'⟩ := wake_of_released moved _ c timedOut _ hfind
  refine ⟨m', SharedException.mk (make_shared e), hm', rfl, rfl, ?_⟩
  intro hown
  have hcopy : make_shared e = e.object := by
    unfold make_shared
    rw [if_pos hown]
  refine ⟨?_, ?_⟩
  · show (make_shared e).what = e.object.what
    rw [hcopy]
  · show make_shared e = e.object
    exact hcopy

theorem C3_exception_rethrown_own_class_witness :
    (∀ op ∈ [Op.enter 2], Op.waitOfOther (T := Nat) 1 op = true) ∧
    (passed_as_is (runtime_error "boom")).ExceptionT =
      (passed_as_is (runtime_error "boom")).object.cls ∧
    ∃ (m' : Map Nat) (se : SharedException), WaitFor_wake id
        (run id (SetException (run id (WaitFor_enter [] 1) [])
          (passed_as_is (runtime_error "boom"))) [Op.enter 2])
        1 false = some (m', .thrown se) ∧
      se.what = "boom" ∧ se.GetException = runtime_error "boom" :=
  ⟨by decide, by decide,
   (C3_exception_rethrown_own_class id [] 1 [] [Op.enter 2]
      (passed_as_is (runtime_error "boom")) false (by decide)).imp fun _ h =>
        h.imp fun _ hse => ⟨hse.1, (hse.2.2.2 (by decide)).1, (hse.2.2.2 (by decide)).2⟩⟩

/-- Claim C4, recurrence.  From any map, in the sequence: `c` enters `WaitFor`,
`SetValue(v1)`, `c` wakes up, `c` enters `WaitFor` again, `SetValue(v2)`, `c` wakes
up, the first call returns `v1` and the second returns `v2`.  The second entry puts
the slot, which has delivered `v1`, back to waiting: it has `should_wait = true`
(and holds what the move left of `v1`), so a wake-up before `SetValue(v2)` parks
again, or returns the empty optional at the timeout, and does not return `v1` a second
time; after `SetValue(v2)` the slot is released with `v2`. -/
theorem C4_recurrence (moved : T → T) (m0 : Map T) (c : Key) (v1 v2 : T) (t1 t2 : Bool) :
    results moved m0
        [.enter c, .set_value v1, .wake c t1, .enter c, .set_value v2, .wake c t2] =
      [(c, .returned v1), (c, .returned v2)] ∧
    find (run moved m0 [.enter c, .set_value v1, .wake c t1, .enter c]) c =
      some { should_wait := true, value := .index1 (moved v1) } ∧
    results moved m0 [.enter c, .set_value v1, .wake c t1, .enter c, .wake c t2] =
      [(c, .returned v1), (c, if t2 then .empty else .parked)] ∧
    find (run moved m0 [.enter c, .set_value v1, .wake c t1, .enter c, .set_value v2]) c =
      some { should_wait := false, value := .index1 v2 } := by
  have h1 : find (SetValue (WaitFor_enter m0 c) (.index1 v1)) c =
      some { should_wait := false, value := .index1 v1 } :=
    find_published _ _ c (by rw [find_enter_self]; rfl)
  have hm3 : WaitFor_wake moved (SetValue (WaitFor_enter m0 c) (.index1 v1)) c t1 =
      some (assign (fun r => { r with value := .index1 (moved v1) })
        (SetValue (WaitFor_enter m0 c) (.index1 v1)) c, .returned v1) := by
    unfold WaitFor_wake
    rw [h1]
    rfl
  have hslot3 : find (assign (fun r => { r with value := .index1 (moved v1) })
      (SetValue (WaitFor_enter m0 c) (.index1 v1)) c) c =
      some { should_wait := false, value := .index1 (moved v1) } := by
    rw [find_assign_self, h1]
    rfl
  have hslot4 : find (WaitFor_enter (assign (fun r => { r with value := .index1 (moved v1) })
      (SetValue (WaitFor_enter m0 c) (.index1 v1)) c) c) c =
      some { should_wait := true, value := .index1 (moved v1) } := by
    rw [find_enter_self, hslot3]
    rfl
  have hpark := wake_of_waiting moved _ c t2 _ hslot4 rfl
  have h2 : find (SetValue (WaitFor_enter (assign
      (fun r => { r with value := .index1 (moved v1) })
      (SetValue (WaitFor_enter m0 c) (.index1 v1)) c) c) (.index1 v2)) c =
      some { should_wait := false, value := .index1 v2 } :=
    find_published _ _ c (by rw [hslot4]; rfl)
  obtain ⟨m6, hm6⟩ := wake_of_released moved _ c t2 _ h2
  refine ⟨?_, ?_, ?_, ?_⟩
  · simp [results, step, hm3, hm6, delivered]
  · simp only [run, step, hm3]
    exact hslot4
  · simp [results, step, hm3, hpark]
  · simp only [run, step, hm3]
    exact h2

/-- Claim C8, last publish wins.  For every map and payloads `p1`, `p2`, `SetValue(p1)`
followed by `SetValue(p2)` gives the same map as `SetValue(p2)` alone; and a thread
`c` that entered `WaitFor` before the two and wakes up after them, with only critical
sections of other threads' `WaitFor` calls in between, gets `p2`. -/
theorem C8_last_publish_wins (moved : T → T) (m m0 : Map T) (c : Key)
    (ops1 ops2 : List (Op T)) (p1 p2 : variant T) (timedOut : Bool)
    (h2 : ∀ op ∈ ops2, op.waitOfOther c = true) :
    SetValue (SetValue m p1) p2 = SetValue m p2 ∧
    ∃ m', WaitFor_wake moved
        (run moved (SetValue (SetValue (run moved (WaitFor_enter m0 c) ops1) p1) p2) ops2)
        c timedOut = some (m', delivered p2) := by
  have hidem : ∀ m : Map T, SetValue (SetValue m p1) p2 = SetValue m p2 := by
    intro m
    simp [SetValue, List.map_map, Function.comp_def]
  refine ⟨hidem m, ?_⟩
  rw [hidem]
  have hreg := registered_after_enter moved m0 c ops1
  have hpub := find_published _ p2 c hreg
  have hfind := find_run_others moved ops2
    (SetValue (run moved (WaitFor_enter m0 c) ops1) p2) c h2
  rw [hpub] at hfind
  exact wake_of_released moved _ c timedOut p2 hfind

theorem C8_last_publish_wins_witness :
    (∀ op ∈ [Op.enter 2], Op.waitOfOther (T := Nat) 1 op = true) ∧
    SetValue (SetValue (WaitFor_enter [] 5) (.index1 1)) (.index1 2) =
      SetValue (WaitFor_enter [] 5) (.index1 2) ∧
    ∃ m', WaitFor_wake id
        (run id (SetValue (SetValue (run id (WaitFor_enter [] 1) []) (.index1 1))
          (.index0 (SharedException.mk (runtime_error "boom")))) [Op.enter 2])
        1 false =
      some (m', delivered (.index0 (SharedException.mk (runtime_error "boom")))) :=
  ⟨by decide,
   (C8_last_publish_wins id (WaitFor_enter [] 5) [] 1 [] [Op.enter 2] (.index1 1)
      (.index1 2) false (by decide)).1,
   (C8_last_publish_wins id [] [] 1 [] [Op.enter 2] (.index1 1)
      (.index0 (SharedException.mk (runtime_error "boom"))) false (by decide)).2⟩

/-- Claim C5 as stated fails: with the thread 1 parked in `WaitFor` at `SetValue(10)`
and a further `SetValue(20)` before it wakes up, the call returns 20, not 10. -/
theorem C5_exactly_this_value_counterexample :
    results id ([] : Map Nat) [.enter 1, .set_value 10, .set_value 20, .wake 1 false] =
        [(1, .returned 20)] ∧
    ¬ ∀ (m0 : Map Nat) (c : Key) (v : Nat) (ops : List (Op Nat)) (timedOut : Bool),
        (∀ op ∈ ops, (op.payload).isSome = true) →
        ∃ m', WaitFor_wake id (run id (SetValue (WaitFor_enter m0 c) (.index1 v)) ops)
          c timedOut = some (m', .returned v) := by
  refine ⟨by decide, ?_⟩
  intro h
  obtain ⟨m', hm'⟩ := h [] 1 10 [.set_value 20] false (by decide)
  have e : (WaitFor_wake id (run id (SetValue (WaitFor_enter ([] : Map Nat) 1)
      (.index1 10)) [.set_value 20]) 1 false).map Prod.snd = some (.returned 20) := by
    decide
  rw [hm'] at e
  simp at e

/-- Claim C5, amended.  A thread `c` that is parked in `WaitFor` when `SetValue(v)` is
called gets, when it wakes up, the payload of the last publish made before that
wake-up: `v` itself when only critical sections of other threads' `WaitFor` calls come
in between, and otherwise the value or exception of the last of the further
`SetValue` / `SetException` calls. -/
theorem C5_last_payload_delivered (moved : T → T) (m0 : Map T) (c : Key)
    (ops1 ops : List (Op T)) (v : T) (timedOut : Bool)
    (h : ∀ op ∈ ops, (op.payload).isSome = true ∨ op.waitOfOther c = true) :
    (∃ m', WaitFor_wake moved
        (run moved (SetValue (run moved (WaitFor_enter m0 c) ops1) (.index1 v)) ops)
        c timedOut = some (m', delivered (lastPayload (.index1 v) ops))) ∧
    ((∀ op ∈ ops, op.payload = none) → lastPayload (.index1 v) ops = .index1 v) ∧
    (∀ (front : List (Op T)) (op : Op T) (q : variant T), ops = front ++ [op] →
        op.payload = some q → lastPayload (.index1 v) ops = q) := by
  refine ⟨?_, ?_, ?_⟩
  · have hreg := registered_after_enter moved m0 c ops1
    have hpub := find_published _ (variant.index1 v) c hreg
    exact wake_of_released moved _ c timedOut _
      (find_run_released moved ops _ c _ hpub h)
  · intro hn
    clear h
    induction ops with
    | nil => rfl
    | cons op ops ih =>
      have h1 : op.payload = none := hn op (List.mem_cons_self _ _)
      simp only [lastPayload, List.foldl_cons, h1, Option.getD_none]
      exact ih fun o ho => hn o (List.mem_cons_of_mem _ ho)
  · intro front op q hops hq
    rw [hops]
    simp [lastPayload, List.foldl_append, hq]

theorem C5_last_payload_delivered_witness :
    (∀ op ∈ [Op.set_value 20, Op.enter 2, Op.set_value 30],
        (Op.payload (T := Nat) op).isSome = true ∨ Op.waitOfOther 1 op = true) ∧
    ∃ m', WaitFor_wake id
        (run id (SetValue (run id (WaitFor_enter [] 1) []) (.index1 10))
          [Op.set_value 20, Op.enter 2, Op.set_value 30])
        1 false =
      some (m', delivered (lastPayload (.index1 10)
          [Op.set_value 20, Op.enter 2, Op.set_value 30])) :=
  ⟨by decide,
   (C5_last_payload_delivered id [] 1 [] [Op.set_value 20, Op.enter 2, Op.set_value 30]
      10 false (by decide)).1⟩

/-- Claim C10, waits are isolated per thread.  For two distinct threads `c` and `d`,
the entry of `c` into `WaitFor` and every wake-up of `c` (parking again, timing out,
returning or throwing) leave the element of `d` as it is and remove no element from
`_map`; so what a wake-up of `d` gives is the same before and after. -/
theorem C10_waits_isolated (moved : T → T) (m : Map T) (c d : Key) (timedOut : Bool)
    (hd : d ≠ c) :
    find (WaitFor_enter m c) d = find m d ∧
    (∀ k, (find m k).isSome = true → (find (WaitFor_enter m c) k).isSome = true) ∧
    (∀ t, (WaitFor_wake moved (WaitFor_enter m c) d t).map Prod.snd =
        (WaitFor_wake moved m d t).map Prod.snd) ∧
    ∀ m' res, WaitFor_wake moved m c timedOut = some (m', res) →
      find m' d = find m d ∧
      (∀ k, (find m k).isSome = true → (find m' k).isSome = true) ∧
      ∀ t, (WaitFor_wake moved m' d t).map Prod.snd =
        (WaitFor_wake moved m d t).map Prod.snd := by
  refine ⟨find_enter_other m c d hd, fun k hk => registered_enter m c k hk,
    fun t => wake_congr moved m _ d t (find_enter_other m c d hd), ?_⟩
  intro m' res hw
  have hf := find_wake_other moved m m' c d timedOut res hw hd
  exact ⟨hf, fun k hk => registered_wake moved m m' c k timedOut res hw hk,
    fun t => wake_congr moved m m' d t hf⟩

theorem C10_waits_isolated_witness :
    (2 : Key) ≠ 1 ∧
    find (WaitFor_enter (SetValue (WaitFor_enter ([] : Map Nat) 2) (.index1 4)) 1) 2 =
      find (SetValue (WaitFor_enter ([] : Map Nat) 2) (.index1 4)) 2 :=
  ⟨by decide,
   (C10_waits_isolated id (SetValue (WaitFor_enter ([] : Map Nat) 2) (.index1 4)) 1 2 true
      (by decide)).1⟩

/-! ## Reachable states -/

theorem SlotsWritten_mono (moved : T → T) (H H' : List (variant T)) (s : Sys T)
    (hs : SlotsWritten moved H s) (hsub : ∀ p, p ∈ H → p ∈ H') :
    SlotsWritten moved H' s := by
  intro c slot hf hw
  rcases hs c slot hf hw with h | ⟨hc, v, hv, he⟩
  · exact Or.inl (hsub _ h)
  · exact Or.inr ⟨hc, v, hsub _ hv, he⟩

theorem ResultWritten_mono (H H' : List (variant T)) (res : WaitResult T)
    (hr : ResultWritten H res) (hsub : ∀ p, p ∈ H → p ∈ H') : ResultWritten H' res := by
  cases res with
  | parked => trivial
  | empty => trivial
  | returned v => exact hsub _ hr
  | thrown e => exact hsub _ hr

theorem SlotsWritten_publish (moved : T → T) (H : List (variant T)) (s : Sys T)
    (q : variant T) :
    SlotsWritten moved (H ++ [q]) { s with _map := SetValue s._map q } := by
  intro c slot hf _
  simp only [find_SetValue] at hf
  cases h : find s._map c with
  | none => simp [h] at hf
  | some r =>
    simp only [h, Option.map_some', Option.some.injEq] at hf
    left
    rw [← hf]
    simp

theorem SlotsWritten_advance (moved : T → T) (H : List (variant T)) (s : Sys T) (op : Op T)
    (hs : SlotsWritten moved H s) :
    SlotsWritten moved (H ++ (op.payload).toList) (Sys.advance moved s op).1 ∧
    ∀ c res, (Sys.advance moved s op).2 = some (c, res) → ResultWritten H res := by
  cases op with
  | enter c =>
    simp only [Sys.advance, Op.payload, Option.toList, List.append_nil]
    by_cases hin : c ∈ s.inside
    · simp only [hin, if_true]
      exact ⟨hs, fun _ _ h => by simp at h⟩
    · simp only [hin, if_false]
      refine ⟨?_, fun _ _ h => by simp at h⟩
      intro k slot hf hw
      by_cases hk : k = c
      · subst hk
        simp only [find_enter_self, Option.some.injEq] at hf
        rw [← hf] at hw
        simp at hw
      · simp only [find_enter_other _ _ _ hk] at hf
        rcases hs k slot hf hw with h | ⟨hc, v, hv, he⟩
        · exact Or.inl h
        · refine Or.inr ⟨?_, v, hv, he⟩
          simp only [List.mem_cons, not_or]
          exact ⟨hk, hc⟩
  | wake c timedOut =>
    simp only [Sys.advance, Op.payload, Option.toList, List.append_nil]
    by_cases hin : c ∈ s.inside
    · simp only [hin, if_true]
      have hfilter : ∀ (k : Key) (b : Bool), k ∉ s.inside →
          k ∉ (if b then s.inside else s.inside.filter (fun j => j != c)) := by
        intro k b hk
        cases b
        · intro hmem
          exact hk (List.mem_of_mem_filter hmem)
        · exact hk
      cases hfc : find s._map c with
      | none =>
        have hnone : WaitFor_wake moved s._map c timedOut = none := by
          unfold WaitFor_wake
          rw [hfc]
        rw [hnone]
        exact ⟨hs, fun _ _ h => by simp at h⟩
      | some r =>
        cases hw : r.should_wait with
        | true =>
          rw [wake_of_waiting moved s._map c timedOut r hfc hw]
          refine ⟨?_, ?_⟩
          · intro k slot hf hsw
            rcases hs k slot hf hsw with h | ⟨hc, v, hv, he⟩
            · exact Or.inl h
            · exact Or.inr ⟨hfilter k _ hc, v, hv, he⟩
          · intro c' res h
            simp only [Option.some.injEq, Prod.mk.injEq] at h
            rw [← h.2]
            cases timedOut <;> trivial
        | false =>
          have hval : r.value ∈ H := by
            rcases hs c r hfc hw with h | ⟨hc, _⟩
            · exact h
            · exact absurd hin hc
          cases hv : r.value with
          | index0 e =>
            have hwake : WaitFor_wake moved s._map c timedOut =
                some (s._map, .thrown e) := by
              unfold WaitFor_wake
              rw [hfc]
              simp [hw, hv, throw_exception]
            rw [hwake]
            refine ⟨?_, ?_⟩
            · intro k slot hf hsw
              rcases hs k slot hf hsw with h | ⟨hc, v, hv', he⟩
              · exact Or.inl h
              · exact Or.inr ⟨hfilter k (WaitResult.thrown (T := T) e).isParked hc, v, hv', he⟩
            · intro c' res h
              simp only [Option.some.injEq, Prod.mk.injEq] at h
              rw [← h.2]
              rw [hv] at hval
              exact hval
          | index1 v =>
            have hwake : WaitFor_wake moved s._map c timedOut =
                some (assign (fun r => { r with value := .index1 (moved v) }) s._map c,
                  .returned v) := by
              unfold WaitFor_wake
              rw [hfc]
              simp [hw, hv]
            rw [hwake]
            rw [hv] at hval
            refine ⟨?_, ?_⟩
            · intro k slot hf hsw
              by_cases hk : k = c
              · subst hk
                simp only [find_assign_self, hfc, Option.map_some', Option.some.injEq] at hf
                refine Or.inr ⟨?_, v, hval, ?_⟩
                · simp [WaitResult.isParked]
                · rw [← hf]
              · simp only [find_assign_other _ _ _ _ hk] at hf
                rcases hs k slot hf hsw with h | ⟨hc, v', hv', he⟩
                · exact Or.inl h
                · exact Or.inr ⟨hfilter k (WaitResult.returned v).isParked hc, v', hv', he⟩
            · intro c' res h
              simp only [Option.some.injEq, Prod.mk.injEq] at h
              rw [← h.2]
              exact hval
    · simp only [hin, if_false]
      exact ⟨hs, fun _ _ h => by simp at h⟩
  | set_value v =>
    simp only [Sys.advance, Op.payload, Option.toList]
    exact ⟨SlotsWritten_publish moved H s _, fun _ _ h => by simp at h⟩
  | set_exception e =>
    simp only [Sys.advance, Op.payload, Option.toList, SetException]
    exact ⟨SlotsWritten_publish moved H s _, fun _ _ h => by simp at h⟩

theorem published_cons (op : Op T) (ops : List (Op T)) :
    published (op :: ops) = (op.payload).toList ++ published ops := by
  unfold published
  cases h : op.payload <;> simp [List.filterMap_cons, h]

theorem SlotsWritten_execute (moved : T → T) (ops : List (Op T)) (H : List (variant T))
    (s : Sys T) (hs : SlotsWritten moved H s) :
    SlotsWritten moved (H ++ published ops) (Sys.execute moved s ops) ∧
    ∀ c res, (c, res) ∈ Sys.outcomes moved s ops → ResultWritten (H ++ published ops) res := by
  induction ops generalizing H s with
  | nil =>
    simp only [published, List.filterMap_nil, List.append_nil, Sys.execute, Sys.outcomes]
    exact ⟨hs, fun _ _ h => by simp at h⟩
  | cons op ops ih =>
    obtain ⟨hstep, hres⟩ := SlotsWritten_advance moved H s op hs
    obtain ⟨ih1, ih2⟩ := ih (H ++ (op.payload).toList) (Sys.advance moved s op).1 hstep
    rw [published_cons, ← List.append_assoc]
    refine ⟨ih1, ?_⟩
    intro c res hmem
    simp only [Sys.outcomes] at hmem
    cases hout : (Sys.advance moved s op).2 with
    | none =>
      rw [hout] at hmem
      exact ih2 c res hmem
    | some r =>
      rw [hout] at hmem
      simp only [List.mem_cons] at hmem
      rcases hmem with h | h
      · obtain ⟨c', res'⟩ := r
        simp only [Prod.mk.injEq] at h
        have h1 := hres c' res' hout
        rw [← h.2] at h1
        exact ResultWritten_mono H _ res h1 (fun p hp => by simp [hp])
      · exact ih2 c res h

/-- Claim C9, the placeholder of a fresh slot is never observed.  In every state
reached from the constructed future by calls of `WaitFor`, `SetValue(v)` and
`SetException(e)`, each element of `_map` with `should_wait = false` holds a payload
stored by a publish (for a thread whose call has returned its value: what the move
left of that value in the slot), and every value returned and every exception thrown
by `WaitFor` is one a publish stored.  So, unless the very same exception was
published, no such slot holds the default-constructed `SharedException` and no call
throws it. -/
theorem C9_placeholder_unreachable (moved : T → T) (ops : List (Op T)) :
    SlotsWritten moved (published ops) (Sys.execute moved Sys.init ops) ∧
    (∀ c res, (c, res) ∈ Sys.outcomes moved Sys.init ops →
        ResultWritten (published ops) res) ∧
    (variant.index0 SharedException.default ∉ published ops →
      (∀ c slot, find (Sys.execute moved Sys.init ops)._map c = some slot →
          slot.should_wait = false → slot.value ≠ .index0 SharedException.default) ∧
      ∀ c, (c, WaitResult.thrown SharedException.default) ∉
          Sys.outcomes moved Sys.init ops) := by
  have hinit : SlotsWritten moved [] (Sys.init : Sys T) := by
    intro c slot hf _
    simp [Sys.init, find] at hf
  obtain ⟨h1, h2⟩ := SlotsWritten_execute moved ops [] Sys.init hinit
  rw [List.nil_append] at h1 h2
  refine ⟨h1, h2, ?_⟩
  intro hno
  refine ⟨?_, ?_⟩
  · intro c slot hf hw heq
    rcases h1 c slot hf hw with h | ⟨_, v, _, he⟩
    · rw [heq] at h
      exact hno h
    · rw [heq] at he
      cases he
  · intro c hmem
    exact hno (h2 c _ hmem)

theorem C9_placeholder_unreachable_witness :
    (1, WaitResult.thrown (SharedException.mk (runtime_error "boom"))) ∈
      Sys.outcomes (T := Nat) id Sys.init
        [.enter 1, .set_exception (passed_as_is (runtime_error "boom")), .wake 1 false] ∧
    ResultWritten
      (published (T := Nat) [.enter 1, .set_exception (passed_as_is (runtime_error "boom")), .wake 1 false])
      (WaitResult.thrown (SharedException.mk (runtime_error "boom"))) :=
  ⟨by decide,
   (C9_placeholder_unreachable id
      [.enter 1, .set_exception (passed_as_is (runtime_error "boom")), .wake 1 false]).2.1 1 _ (by decide)⟩

end Future

/-! ## `time_duration`: construction and conversion -/

section Time

theorem tdiv_of_nonpos (x c : Int) (hx : x ≤ 0) (hc : 0 ≤ c) :
    Int.tdiv x c = -((-x) / c) := by
  have h : Int.tdiv (-(-x)) c = -(Int.tdiv (-x) c) := Int.neg_tdiv (-x) c
  rw [neg_neg] at h
  rw [h, Int.tdiv_eq_ediv (by omega) hc]

theorem tdiv_mul_right (x c g : Int) (hc : 0 ≤ c) (hg : 0 < g) :
    Int.tdiv (x * g) (c * g) = Int.tdiv x c := by
  have hcg : 0 ≤ c * g := Int.mul_nonneg hc (le_of_lt hg)
  rcases le_total 0 x with hx | hx
  · rw [Int.tdiv_eq_ediv (Int.mul_nonneg hx (le_of_lt hg)) hcg, Int.tdiv_eq_ediv hx hc]
    exact Int.mul_ediv_mul_of_pos_left x c hg
  · have hxg : x * g ≤ 0 := Int.mul_nonpos_of_nonpos_of_nonneg hx (le_of_lt hg)
    rw [tdiv_of_nonpos _ _ hxg hcg, tdiv_of_nonpos _ _ hx hc]
    have e : -(x * g) = (-x) * g := by ring
    rw [e, Int.mul_ediv_mul_of_pos_left (-x) c hg]

theorem tdiv_neg_iff (x c : Int) (hc : 0 < c) : Int.tdiv x c < 0 ↔ x ≤ -c := by
  rcases le_total 0 x with hx | hx
  · have h0 : 0 ≤ Int.tdiv x c := Int.tdiv_nonneg hx (le_of_lt hc)
    constructor
    · intro h
      omega
    · intro h
      omega
  · rw [tdiv_of_nonpos x c hx (le_of_lt hc)]
    have hiff : (1 : Int) ≤ (-x) / c ↔ 1 * c ≤ -x := Int.le_ediv_iff_mul_le hc
    constructor
    · intro h
      have h1 : (1 : Int) ≤ (-x) / c := by omega
      have h2 := hiff.mp h1
      omega
    · intro h
      have h1 : (1 : Int) ≤ (-x) / c := hiff.mpr (by omega)
      omega

theorem tdiv_lt_of_fits (x c : Int) (hc : 0 ≤ c) (hx : x < (2 : Int) ^ 63) :
    Int.tdiv x c < (2 : Int) ^ 63 := by
  rcases le_total 0 x with h | h
  · rw [Int.tdiv_eq_ediv h hc]
    exact lt_of_le_of_lt (Int.ediv_le_self c h) hx
  · rw [tdiv_of_nonpos x c h hc]
    have h0 : 0 ≤ (-x) / c := Int.ediv_nonneg (by omega) hc
    have h63 : (0 : Int) < (2 : Int) ^ 63 := by norm_num
    omega

theorem to_size_t_of_fits (y : Int) (h0 : 0 ≤ y) (h1 : y < (2 : Int) ^ 63) :
    to_size_t y = y.toNat := by
  unfold to_size_t
  rw [Int.emod_eq_of_lt h0 (lt_trans h1 (by norm_num))]

theorem to_rep_of_lt (n : Nat) (hn : n < 2 ^ 63) : to_rep n = (n : Int) := by
  unfold to_rep
  have h64 : n % 2 ^ 64 = n := Nat.mod_eq_of_lt (lt_trans hn (by norm_num))
  rw [h64, if_pos hn]

theorem cast_eq_truncated (d : chrono_duration) (hden : 0 < d.den) :
    Int.tdiv (d.count * (cf_num d : Int)) (cf_den d : Int) = truncated_milliseconds d := by
  unfold truncated_milliseconds
  have hg : 0 < Nat.gcd (d.num * 1000) d.den := Nat.gcd_pos_of_pos_right _ hden
  have hn : cf_num d * Nat.gcd (d.num * 1000) d.den = d.num * 1000 :=
    Nat.div_mul_cancel (Nat.gcd_dvd_left _ _)
  have hd : cf_den d * Nat.gcd (d.num * 1000) d.den = d.den :=
    Nat.div_mul_cancel (Nat.gcd_dvd_right _ _)
  have hn' : ((d.num * 1000 : Nat) : Int) =
      (cf_num d : Int) * (Nat.gcd (d.num * 1000) d.den : Int) := by
    rw [← Int.ofNat_mul, hn]
  have hd' : (d.den : Int) = (cf_den d : Int) * (Nat.gcd (d.num * 1000) d.den : Int) := by
    rw [← Int.ofNat_mul, hd]
  rw [hn', hd', ← mul_assoc]
  exact (tdiv_mul_right _ _ _ (Int.ofNat_nonneg _) (by exact_mod_cast hg)).symm

theorem of_chrono_eq (d : chrono_duration) (hden : 0 < d.den)
    (hfit : in_int64 (d.count * (cf_num d : Int)) = true) :
    time_duration.of_chrono d =
      if truncated_milliseconds d < 0 then Constructed.assertion_failed
      else Constructed.ok { _milliseconds := (truncated_milliseconds d).toNat } := by
  have hlt : d.count * (cf_num d : Int) < (2 : Int) ^ 63 := by
    simp only [in_int64, Bool.and_eq_true, decide_eq_true_eq] at hfit
    exact hfit.2
  have hb := tdiv_lt_of_fits _ (cf_den d : Int) (Int.ofNat_nonneg _) hlt
  rw [cast_eq_truncated d hden] at hb
  unfold time_duration.of_chrono duration_cast_milliseconds
  simp only [hfit, if_true]
  rw [cast_eq_truncated d hden]
  by_cases hneg : truncated_milliseconds d < 0
  · have hdec : decide (truncated_milliseconds d ≥ 0) = false := by
      simp only [decide_eq_false_iff_not]
      omega
    simp [hneg, hdec, DEBUG_ASSERT]
  · have hdec : decide (truncated_milliseconds d ≥ 0) = true := by
      simp only [decide_eq_true_eq]
      omega
    simp only [hneg, hdec, DEBUG_ASSERT, if_true, if_false]
    rw [to_size_t_of_fits _ (by omega) hb]

theorem of_chrono_milliseconds (n : Nat) (hn : n < 2 ^ 63) :
    time_duration.of_chrono (chrono_milliseconds (n : Int)) =
      Constructed.ok { _milliseconds := n } := by
  have hcf : cf_num (chrono_milliseconds (n : Int)) = 1 := by
    show 1 * 1000 / Nat.gcd (1 * 1000) 1000 = 1
    decide
  have hfit : in_int64 ((chrono_milliseconds (n : Int)).count *
      (cf_num (chrono_milliseconds (n : Int)) : Int)) = true := by
    rw [hcf]
    simp only [chrono_milliseconds, in_int64, Bool.and_eq_true, decide_eq_true_eq]
    have h63 : ((n : Int)) < (2 : Int) ^ 63 := by exact_mod_cast hn
    constructor
    · have : (0 : Int) ≤ (n : Int) := Int.ofNat_nonneg n
      have h63' : (0 : Int) < (2 : Int) ^ 63 := by norm_num
      omega
    · simpa using h63
  have htr : truncated_milliseconds (chrono_milliseconds (n : Int)) = (n : Int) := by
    show Int.tdiv ((n : Int) * ((1 * 1000 : Nat) : Int)) ((1000 : Nat) : Int) = (n : Int)
    have e1 : ((1 * 1000 : Nat) : Int) = 1000 := by norm_num
    rw [e1]
    show Int.tdiv ((n : Int) * 1000) 1000 = (n : Int)
    exact Int.mul_tdiv_cancel (n : Int) (by norm_num)
  have hden : 0 < (chrono_milliseconds (n : Int)).den := by
    show 0 < 1000
    norm_num
  rw [of_chrono_eq _ hden hfit, htr]
  have hnn : ¬ ((n : Int) < 0) := by
    have : (0 : Int) ≤ (n : Int) := Int.ofNat_nonneg n
    omega
  rw [if_neg hnn, Int.toNat_ofNat]

/-- Claim C6, round trip of a duration.  For every count `n` below `2^63`, the factory
`milliseconds(n)` builds a `time_duration` whose `milliseconds()` is `n`, and building
a `time_duration` from its `to_chrono()` gives one whose `milliseconds()` is `n`
again. -/
theorem C6_duration_round_trip (n : Nat) (hn : n < 2 ^ 63) :
    ∃ t t', time_duration.milliseconds n = .ok t ∧ t.milliseconds_count = n ∧
      time_duration.of_chrono t.to_chrono = .ok t' ∧ t'.milliseconds_count = n := by
  refine ⟨{ _milliseconds := n }, { _milliseconds := n }, ?_, rfl, ?_, rfl⟩
  · unfold time_duration.milliseconds
    rw [to_rep_of_lt n hn]
    exact of_chrono_milliseconds n hn
  · unfold time_duration.to_chrono
    rw [to_rep_of_lt n hn]
    exact of_chrono_milliseconds n hn

theorem C6_duration_round_trip_witness :
    (1500 : Nat) < 2 ^ 63 ∧
    ∃ t t', time_duration.milliseconds 1500 = .ok t ∧ t.milliseconds_count = 1500 ∧
      time_duration.of_chrono t.to_chrono = .ok t' ∧ t'.milliseconds_count = 1500 :=
  ⟨by norm_num, C6_duration_round_trip 1500 (by norm_num)⟩

/-- Claim C7 as stated fails: a `std::chrono::microseconds(-500)` is negative, yet the
constructor accepts it and stores 0, because the assertion tests the count after the
conversion to milliseconds, which rounds towards zero. -/
theorem C7_negative_rejected_counterexample :
    time_duration.of_chrono (chrono_microseconds (-500)) = .ok { _milliseconds := 0 } ∧
    ¬ ∀ d : chrono_duration, 0 < d.num → 0 < d.den → in_int64 d.count = true →
        (time_duration.of_chrono d = .assertion_failed ↔ d.count < 0) := by
  have h : time_duration.of_chrono (chrono_microseconds (-500)) =
      .ok { _milliseconds := 0 } := by decide
  refine ⟨h, ?_⟩
  intro hall
  have hiff := hall (chrono_microseconds (-500)) (by decide) (by decide) (by decide)
  rw [h] at hiff
  have hneg : (chrono_microseconds (-500)).count < 0 := by decide
  have := hiff.mpr hneg
  cases this

/-- Claim C7, amended.  For a native duration `d` of any tick period whose conversion
to milliseconds does not overflow, the constructor fails its assertion if and only if
`d`, rounded towards zero to whole milliseconds, is negative, that is if and only if
`d` is at most minus one millisecond; otherwise the construction succeeds and stores
`d` rounded towards zero to whole milliseconds (0 for a negative `d` shorter than a
millisecond).  The constructor from a `boost::posix_time::time_duration` does the
same with its `total_milliseconds()`. -/
theorem C7_negative_after_truncation_rejected (d : chrono_duration) (hden : 0 < d.den)
    (hfit : in_int64 (d.count * (cf_num d : Int)) = true) :
    (time_duration.of_chrono d = .assertion_failed ↔ truncated_milliseconds d < 0) ∧
    (truncated_milliseconds d < 0 ↔
        d.count * ((d.num * 1000 : Nat) : Int) ≤ -(d.den : Int)) ∧
    (0 ≤ truncated_milliseconds d →
        time_duration.of_chrono d =
          .ok { _milliseconds := (truncated_milliseconds d).toNat }) ∧
    (d.num = 1 → d.den = 1000 →
        time_duration.of_posix_time d.count = time_duration.of_chrono d ∧
        truncated_milliseconds d = d.count) := by
  have heq := of_chrono_eq d hden hfit
  refine ⟨?_, ?_, ?_, ?_⟩
  · rw [heq]
    by_cases hneg : truncated_milliseconds d < 0
    · simp [hneg]
    · simp [hneg]
  · exact tdiv_neg_iff _ _ (by exact_mod_cast hden)
  · intro h0
    rw [heq, if_neg (by omega)]
  · intro hnum hden'
    obtain ⟨count, num, den⟩ := d
    simp only at hnum hden'
    subst hnum
    subst hden'
    refine ⟨rfl, ?_⟩
    show Int.tdiv (count * ((1 * 1000 : Nat) : Int)) ((1000 : Nat) : Int) = count
    have e1 : ((1 * 1000 : Nat) : Int) = 1000 := by norm_num
    rw [e1]
    exact Int.mul_tdiv_cancel count (by norm_num)

theorem C7_negative_after_truncation_rejected_witness :
    0 < (chrono_seconds (-2)).den ∧
    in_int64 ((chrono_seconds (-2)).count * (cf_num (chrono_seconds (-2)) : Int)) = true ∧
    (time_duration.of_chrono (chrono_seconds (-2)) = .assertion_failed ↔
      truncated_milliseconds (chrono_seconds (-2)) < 0) :=
  ⟨by decide, by decide,
   (C7_negative_after_truncation_rejected (chrono_seconds (-2)) (by decide) (by decide)).1⟩

end Time

end carla
